import Mathlib

/-!
Verification development for the `alpha` codegen crate: an x86-64
instruction encoder, a one-segment assembler with deferred (multi-candidate)
encodings, and an ELF64 linker.  Machine integers (`u64`, `usize`, byte
values) are embedded as `Nat`; all fallible operations (Rust `assert!`,
`panic!` paths, `expect`) are embedded as `Option`/`Except` results.
Byte sequences are `List Nat` with every element interpreted modulo 256.
-/

namespace Alpha

/-- `math::align_up`: round `x` up to the next multiple of `y` (0 stays 0). -/
def align_up (x y : Nat) : Nat :=
  if x = 0 then 0 else (1 + (x - 1) / y) * y

/-- Little-endian byte image of width `n` of value `v` (`to_le_bytes`). -/
def leBytes (n v : Nat) : List Nat :=
  (List.range n).map (fun i => v / 256 ^ i % 256)

theorem leBytes_length (n v : Nat) : (leBytes n v).length = n := by
  simp [leBytes]

/-- `link::ReferenceFormat`: the four fixup formats. -/
inductive ReferenceFormat
  | rel8
  | rel32
  | abs32
  | abs64
  deriving DecidableEq, Repr

/-- `ReferenceFormat::len`: byte width of the fixup field. -/
def ReferenceFormat.len : ReferenceFormat → Nat
  | .rel8 => 1
  | .rel32 => 4
  | .abs32 => 4
  | .abs64 => 8

/-- `ReferenceFormat::is_relative`. -/
def ReferenceFormat.is_relative : ReferenceFormat → Bool
  | .rel8 => true
  | .rel32 => true
  | .abs32 => false
  | .abs64 => false

/-- `ReferenceFormat::resolve`: compute the bytes to patch in for a
reference at `own_location` targeting `label_location`, or `none` on
overflow (the Rust `i8::try_from` / `i32::try_from` failures).  Note the
source's negated `try_from` limits the negative range to `-(2^(w-1)-1)`. -/
def ReferenceFormat.resolve (f : ReferenceFormat)
    (own_location label_location : Nat) : Option (List Nat) :=
  match f with
  | .rel8 =>
    let relative_to := own_location + 1
    if label_location > relative_to then
      if label_location - relative_to ≤ 127 then
        some [label_location - relative_to]
      else none
    else
      if relative_to - label_location ≤ 127 then
        some [(256 - (relative_to - label_location)) % 256]
      else none
  | .rel32 =>
    let relative_to := own_location + 4
    if label_location > relative_to then
      if label_location - relative_to ≤ 2 ^ 31 - 1 then
        some (leBytes 4 (label_location - relative_to))
      else none
    else
      if relative_to - label_location ≤ 2 ^ 31 - 1 then
        some (leBytes 4 ((2 ^ 32 - (relative_to - label_location)) % 2 ^ 32))
      else none
  | .abs32 =>
    if label_location ≤ 2 ^ 31 - 1 ∨ 2 ^ 64 - 2 ^ 31 ≤ label_location then
      some (leBytes 4 (label_location % 2 ^ 32))
    else none
  | .abs64 => some (leBytes 8 label_location)

/-- `link::Reference`: a pending fixup within a segment. -/
structure Reference where
  location : Nat
  format : ReferenceFormat
  deriving DecidableEq, Repr

/-- Lookup in an association list keyed by label name (`HashMap::get`). -/
def lookupKV (m : List (String × Nat)) (k : String) : Option Nat :=
  (m.find? (fun kv => kv.1 = k)).map (fun kv => kv.2)

/-- `link::Segment`: append-only byte buffer with labels and references.
The Rust `HashMap`s are embedded as association/flat lists. -/
structure Segment where
  alignment : Nat
  data : List Nat
  labels : List (String × Nat)
  references : List (String × Reference)
  deriving DecidableEq, Repr

namespace Segment

/-- `Segment::new`. -/
def new : Segment := ⟨1, [], [], []⟩

/-- `Segment::position`. -/
def position (s : Segment) : Nat := s.data.length

/-- `Segment::align` (asserts power of two). -/
def align (s : Segment) (alignment : Nat) : Option Segment :=
  if alignment ≠ 0 ∧ alignment &&& (alignment - 1) = 0 then
    some { s with alignment := max s.alignment alignment }
  else none

/-- `Segment::offset_label` (asserts the name is fresh in this segment). -/
def offset_label (s : Segment) (offset : Nat) (label : String) : Option Segment :=
  if (s.labels.find? (fun kv => kv.1 = label)).isSome then none
  else some { s with labels := s.labels ++ [(label, s.data.length + offset)] }

/-- `Segment::label`. -/
def label (s : Segment) (l : String) : Option Segment := s.offset_label 0 l

/-- `Segment::extend`. -/
def extend (s : Segment) (bytes : List Nat) : Segment :=
  { s with data := s.data ++ bytes }

/-- `Segment::absolute_reference`. -/
def absolute_reference (s : Segment) (location : Nat) (label : String)
    (format : ReferenceFormat) : Segment :=
  { s with references := s.references ++ [(label, ⟨location, format⟩)] }

/-- `Segment::offset_reference`. -/
def offset_reference (s : Segment) (offset : Nat) (label : String)
    (format : ReferenceFormat) : Segment :=
  s.absolute_reference (s.data.length + offset) label format

/-- `Segment::reference`. -/
def reference (s : Segment) (label : String) (format : ReferenceFormat) : Segment :=
  s.offset_reference 0 label format

/-- `Segment::append_reference`: record a reference then pad with zeros. -/
def append_reference (s : Segment) (label : String) (format : ReferenceFormat) : Segment :=
  (s.reference label format).extend (List.replicate format.len 0)

/-- `Segment::label_location`. -/
def label_location (s : Segment) (label : String) : Option Nat :=
  lookupKV s.labels label

end Segment

/-- Overwrite `bytes.length` bytes of `data` starting at `loc`
(`copy_from_slice` on a subslice); `none` when the slice would be out of
bounds (a Rust panic). -/
def writeSlice (data : List Nat) (loc : Nat) (bytes : List Nat) : Option (List Nat) :=
  if loc + bytes.length ≤ data.length then
    some (data.take loc ++ bytes ++ data.drop (loc + bytes.length))
  else none

theorem writeSlice_length {data : List Nat} {loc : Nat} {bytes d' : List Nat}
    (h : writeSlice data loc bytes = some d') : d'.length = data.length := by
  unfold writeSlice at h
  split at h
  · cases h
    next hle =>
      simp [List.length_append, List.length_take, List.length_drop]
      omega
  · cases h

/-! ## x86 register model (`x86::register`), restricted to the 64-bit file,
which is the only file the verified claims touch. -/

/-- `x86::register::R64`. -/
inductive R64
  | RAX | RBX | RCX | RDX | RDI | RSI | RBP | RSP
  | R8 | R9 | R10 | R11 | R12 | R13 | R14 | R15
  deriving DecidableEq, Repr

namespace R64

/-- `R64::code`: the 4-bit x86 register code. -/
def code : R64 → Nat
  | .RAX => 0x0
  | .RCX => 0x1
  | .RDX => 0x2
  | .RBX => 0x3
  | .RSP => 0x4
  | .RBP => 0x5
  | .RSI => 0x6
  | .RDI => 0x7
  | .R8 => 0x8
  | .R9 => 0x9
  | .R10 => 0xa
  | .R11 => 0xb
  | .R12 => 0xc
  | .R13 => 0xd
  | .R14 => 0xe
  | .R15 => 0xf

/-- `R64::code_3bit`. -/
def code_3bit (r : R64) : Nat := r.code &&& 0b111

/-- `R64::upper_bit`. -/
def upper_bit (r : R64) : Nat := r.code >>> 3

/-- `Register::in_opcode` for `R64`. -/
def in_opcode (r : R64) : Nat := r.code_3bit <<< 0

/-- `Register::in_rm` for `R64`. -/
def in_rm (r : R64) : Nat := r.code_3bit <<< 0

/-- `Register::in_reg` for `R64`. -/
def in_reg (r : R64) : Nat := r.code_3bit <<< 3

/-- `Register::rex_b` for `R64`. -/
def rex_b (r : R64) : Nat := r.upper_bit <<< 0

/-- `Register::rex_x` for `R64`. -/
def rex_x (r : R64) : Nat := r.upper_bit <<< 1

/-- `Register::rex_r` for `R64`. -/
def rex_r (r : R64) : Nat := r.upper_bit <<< 2

end R64

/-! ## Instruction encoding (`x86::instruction`) -/

/-- `x86::instruction::InstructionBuilder`.  The `Immediate` payloads of
`displacement` and `immediate` are embedded directly as their
little-endian byte lists, and the `[u8; 3]` opcode array as three fields. -/
structure InstructionBuilder where
  prefixes : List Nat
  rex : Nat
  opcode_size : Nat
  opc0 : Nat
  opc1 : Nat
  opc2 : Nat
  modrm : Option Nat
  sib : Option Nat
  disp : Option (List Nat)
  imm : Option (List Nat)
  reference : Option (String × ReferenceFormat)
  deriving DecidableEq, Repr

namespace InstructionBuilder

/-- `InstructionBuilder::new`. -/
def new : InstructionBuilder :=
  ⟨[], 0x40, 0, 0, 0, 0, none, none, none, none, none⟩

/-- `InstructionBuilder::operand_size_override`. -/
def operand_size_override (b : InstructionBuilder) : InstructionBuilder :=
  { b with prefixes := b.prefixes ++ [0x66] }

/-- `InstructionBuilder::rex_w`. -/
def rex_w (b : InstructionBuilder) : InstructionBuilder :=
  { b with rex := b.rex ||| 0x08 }

/-- `InstructionBuilder::opcode` at a 1-byte opcode
(`<u8 as Opcode>::pad_start`). -/
def opcode1 (b : InstructionBuilder) (op : Nat) : InstructionBuilder :=
  { b with opcode_size := 1, opc0 := 0, opc1 := 0, opc2 := op }

/-- `InstructionBuilder::opcode` at a 2-byte opcode
(`<[u8; 2] as Opcode>::pad_start`). -/
def opcode2 (b : InstructionBuilder) (op0 op1 : Nat) : InstructionBuilder :=
  { b with opcode_size := 2, opc0 := 0, opc1 := op0, opc2 := op1 }

/-- `InstructionBuilder::op_reg`. -/
def op_reg (b : InstructionBuilder) (reg : R64) : InstructionBuilder :=
  { b with rex := b.rex ||| reg.rex_b, opc2 := b.opc2 ||| reg.in_opcode }

/-- `InstructionBuilder::mod_`. -/
def mod_ (b : InstructionBuilder) (m : Nat) : InstructionBuilder :=
  { b with modrm := some ((b.modrm.getD 0x00) ||| (m <<< 6)) }

/-- `InstructionBuilder::reg`. -/
def reg (b : InstructionBuilder) (r : R64) : InstructionBuilder :=
  { b with rex := b.rex ||| r.rex_r, modrm := some ((b.modrm.getD 0x00) ||| r.in_reg) }

/-- `InstructionBuilder::reg_const`. -/
def reg_const (b : InstructionBuilder) (x : Nat) : InstructionBuilder :=
  { b with modrm := some ((b.modrm.getD 0x00) ||| (x <<< 3)) }

/-- `InstructionBuilder::rm_reg`. -/
def rm_reg (b : InstructionBuilder) (r : R64) : InstructionBuilder :=
  { b with rex := b.rex ||| r.rex_b, modrm := some ((b.modrm.getD 0x00) ||| r.in_rm) }

/-- `InstructionBuilder::rm_const`. -/
def rm_const (b : InstructionBuilder) (x : Nat) : InstructionBuilder :=
  { b with modrm := some ((b.modrm.getD 0x00) ||| x) }

/-- `InstructionBuilder::displacement` (payload already in LE bytes). -/
def displacement (b : InstructionBuilder) (bytes : List Nat) : InstructionBuilder :=
  { b with disp := some bytes }

/-- `InstructionBuilder::immediate` (payload already in LE bytes). -/
def immediate (b : InstructionBuilder) (bytes : List Nat) : InstructionBuilder :=
  { b with imm := some bytes }

/-- `InstructionBuilder::rm_literal`. -/
def rm_literal (b : InstructionBuilder) (r : R64) : InstructionBuilder :=
  (b.mod_ 0b11).rm_reg r

/-- `InstructionBuilder::reference`. -/
def set_reference (b : InstructionBuilder) (label : String)
    (format : ReferenceFormat) : InstructionBuilder :=
  { b with reference := some (label, format) }

/-- `InstructionBuilder::rel32`: a zero `i32` displacement plus a `Rel32`
reference to the label. -/
def rel32 (b : InstructionBuilder) (label : String) : InstructionBuilder :=
  (b.displacement (leBytes 4 0)).set_reference label .rel32

/-- `InstructionBuilder::rip_relative`: `mod=00, r/m=101`, a zero `u32`
immediate and a `Rel32` reference. -/
def rip_relative (b : InstructionBuilder) (ptr : String) : InstructionBuilder :=
  (((b.mod_ 0b00).rm_const 0b101).immediate (leBytes 4 0)).set_reference ptr .rel32

/-- `InstructionBuilder::serialize`: prefixes, REX (omitted when only the
0x40 base bits are set), opcode tail, ModR/M, SIB, displacement, immediate. -/
def serialize (b : InstructionBuilder) : List Nat :=
  b.prefixes
    ++ (if b.rex &&& 0x0f ≠ 0 then [b.rex] else [])
    ++ (List.drop (3 - b.opcode_size) [b.opc0, b.opc1, b.opc2])
    ++ b.modrm.toList
    ++ b.sib.toList
    ++ b.disp.getD []
    ++ b.imm.getD []

/-- `InstructionBuilder::references`: the optional reference, anchored at
the end of the serialized encoding. -/
def references (b : InstructionBuilder) : List (String × Reference) :=
  match b.reference with
  | none => []
  | some (label, format) => [(label, ⟨b.serialize.length - format.len, format⟩)]

end InstructionBuilder

/-- `Instruction for JMP<Label>`: `E9 cd`, `JMP rel32`. -/
def JMP_label_encode (target : String) : InstructionBuilder :=
  (InstructionBuilder.new.opcode1 0xe9).rel32 target

/-- `Instruction for MOV<R64, u64>`: `REX.W + B8+rd io`, `MOV r64, imm64`. -/
def MOV_r64_imm64_encode (dst : R64) (imm : Nat) : InstructionBuilder :=
  ((InstructionBuilder.new.rex_w.opcode1 0xb8).op_reg dst).immediate (leBytes 8 imm)

/-- `Instruction for INC<R64>`: `REX.W + FF /0`, `INC r/m64`. -/
def INC_r64_encode (dst : R64) : InstructionBuilder :=
  ((InstructionBuilder.new.rex_w.opcode1 0xff).reg_const 0).rm_literal dst

/-- `Instruction for HLT`: `F4`. -/
def HLT_encode : InstructionBuilder :=
  InstructionBuilder.new.opcode1 0xf4

/-- Modelled from the spec: the `InstructionOptions` implementation used by
`Assembler::push` is not under `src/` (only the trait's use sites are).
Per the spec, the encoder returns an ordered candidate list, and "a
single-candidate instruction is the common case"; every mnemonic in
`x86::instruction` has exactly one `encode`, so its candidate list is the
singleton of that encoding. -/
def singleOption (b : InstructionBuilder) : List InstructionBuilder := [b]

/-! ## Assembler (`x86::mod`) -/

/-- `x86::PendingInstruction`. -/
structure PendingInstruction where
  location : Nat
  size : Nat
  options : List InstructionBuilder
  deriving DecidableEq, Repr

/-- `x86::Assembler`. -/
structure Assembler where
  segment : Segment
  pending_instructions : List PendingInstruction
  deriving DecidableEq, Repr

/-- Panics of `Assembler::push`/`Assembler::finish`, as error values. -/
inductive AsmError
  | noEncodingOptions
  | undefinedLabel
  | noViableEncoding
  | duplicateLabel
  | sliceOutOfBounds
  deriving DecidableEq, Repr

namespace Assembler

/-- `Assembler::new`. -/
def new : Assembler := ⟨Segment.new, []⟩

/-- `Assembler::label` (duplicate name is an assertion failure). -/
def label (a : Assembler) (l : String) : Option Assembler :=
  (a.segment.label l).map (fun s => { a with segment := s })

/-- `Assembler::push`, taking the instruction's already-computed candidate
list (`I::options()`).  A single candidate is committed immediately;
otherwise worst-case space is reserved and the instruction is enqueued. -/
def push (a : Assembler) (options : List InstructionBuilder) : Option Assembler :=
  match options with
  | [encoded] =>
    let s := encoded.references.foldl
      (fun s lr => s.offset_reference lr.2.location lr.1 lr.2.format) a.segment
    some { a with segment := s.extend encoded.serialize }
  | opts =>
    match (opts.map (fun e => e.serialize.length)).max? with
    | none => none
    | some worst_case_size =>
      some { a with
        segment := a.segment.extend (List.replicate worst_case_size 0),
        pending_instructions := a.pending_instructions ++
          [⟨a.segment.position, worst_case_size, opts⟩] }

/-- One step of the first (`retain`) sweep of `Assembler::finish`: commit a
pending with undefined-label or absolute references using its largest
(last-listed) candidate, NOP-filling the reserved hole; keep it otherwise. -/
def sweep1Step (s : Segment) (p : PendingInstruction) :
    Except AsmError (Segment × Option PendingInstruction) :=
  match p.options.getLast? with
  | none => .error .noEncodingOptions
  | some encoding =>
    if encoding.references.any (fun lr =>
        (s.label_location lr.1).isNone || !lr.2.format.is_relative) then
      if encoding.serialize.length ≤ p.size then
        match writeSlice s.data p.location
            (encoding.serialize
              ++ List.replicate (p.size - encoding.serialize.length) 0x90) with
        | none => .error .sliceOutOfBounds
        | some data' =>
          .ok (encoding.references.foldl
            (fun s2 lr =>
              s2.absolute_reference (p.location + lr.2.location) lr.1 lr.2.format)
            { s with data := data' }, none)
      else .error .sliceOutOfBounds
    else .ok (s, some p)

/-- The first sweep of `Assembler::finish` over the whole pending list
(`Vec::retain`, in order). -/
def sweep1 (s : Segment) :
    List PendingInstruction → Except AsmError (Segment × List PendingInstruction)
  | [] => .ok (s, [])
  | p :: rest =>
    match sweep1Step s p with
    | .error e => .error e
    | .ok (s', none) => sweep1 s' rest
    | .ok (s', some p') =>
      match sweep1 s' rest with
      | .error e => .error e
      | .ok (s'', kept) => .ok (s'', p' :: kept)

/-- The inner reference loop of the second sweep: patch each reference of
one candidate into its serialized bytes at the instruction's actual
location.  `ok none` mirrors `continue 'options` (some displacement does
not fit); an undefined label is the `unwrap` panic. -/
def patchRefsList (s : Segment) (ploc : Nat) (enc : List Nat) :
    List (String × Reference) → Except AsmError (Option (List Nat))
  | [] => .ok (some enc)
  | lr :: rest =>
    match s.label_location lr.1 with
    | none => .error .undefinedLabel
    | some label_location =>
      match lr.2.format.resolve (ploc + lr.2.location) label_location with
      | none => .ok none
      | some bytes =>
        match writeSlice enc lr.2.location bytes with
        | none => .error .sliceOutOfBounds
        | some enc' => patchRefsList s ploc enc' rest

/-- The candidate loop of the second sweep: accept the first candidate all
of whose references resolve, writing it over the NOP-filled hole. -/
def tryOptions (s : Segment) (p : PendingInstruction) :
    List InstructionBuilder → Except AsmError Segment
  | [] => .error .noViableEncoding
  | o :: rest =>
    match patchRefsList s p.location o.serialize o.references with
    | .error e => .error e
    | .ok none => tryOptions s p rest
    | .ok (some encoded) =>
      if encoded.length ≤ p.size then
        match writeSlice s.data p.location
            (encoded ++ List.replicate (p.size - encoded.length) 0x90) with
        | none => .error .sliceOutOfBounds
        | some data' => .ok { s with data := data' }
      else .error .sliceOutOfBounds

/-- One pending of the second (shortest-viable) sweep of `Assembler::finish`. -/
def resolvePending (s : Segment) (p : PendingInstruction) : Except AsmError Segment :=
  tryOptions s p p.options

/-- The second sweep over the retained pending list. -/
def sweep2 (s : Segment) : List PendingInstruction → Except AsmError Segment
  | [] => .ok s
  | p :: rest =>
    match resolvePending s p with
    | .error e => .error e
    | .ok s' => sweep2 s' rest

/-- `Assembler::finish`: the forced-largest sweep, then the
shortest-viable sweep, yielding the segment. -/
def finish (a : Assembler) : Except AsmError Segment :=
  match sweep1 a.segment a.pending_instructions with
  | .error e => .error e
  | .ok (s1, kept) => sweep2 s1 kept

end Assembler

/-! ## ELF64 records (`elf64`) -/

def FILE_HEADER_SIZE : Nat := 0x40
def PROGRAM_HEADER_SIZE : Nat := 0x38
def SECTION_HEADER_SIZE : Nat := 0x40
def SYMBOL_SIZE : Nat := 0x18
def PT_LOAD : Nat := 1
def PF_X : Nat := 0x1
def PF_W : Nat := 0x2
def PF_R : Nat := 0x4

/-- `elf64::program::Phdr` (all fields as `Nat`). -/
structure Phdr where
  p_type : Nat
  p_flags : Nat
  p_offset : Nat
  p_vaddr : Nat
  p_paddr : Nat
  p_filesz : Nat
  p_memsz : Nat
  p_align : Nat
  deriving DecidableEq, Repr

/-- `bytemuck::bytes_of` for `Phdr`: 56 little-endian bytes, in field order. -/
def Phdr.bytes (h : Phdr) : List Nat :=
  leBytes 4 h.p_type ++ leBytes 4 h.p_flags ++ leBytes 8 h.p_offset
    ++ leBytes 8 h.p_vaddr ++ leBytes 8 h.p_paddr ++ leBytes 8 h.p_filesz
    ++ leBytes 8 h.p_memsz ++ leBytes 8 h.p_align

/-- `elf64::file_header::FileHeader` (all fields as `Nat`). -/
structure FileHeader where
  e_ident : List Nat
  e_type : Nat
  e_machine : Nat
  e_version : Nat
  e_entry : Nat
  e_phoff : Nat
  e_shoff : Nat
  e_flags : Nat
  e_ehsize : Nat
  e_phentsize : Nat
  e_phnum : Nat
  e_shentsize : Nat
  e_shnum : Nat
  e_shstrndx : Nat
  deriving DecidableEq, Repr

/-- `FileHeader::new`: magic `\x7fELF`, `ELFCLASS64`, `ELFDATA2LSB`,
`EV_CURRENT`, `ELFOSABI_STANDALONE` (255), `ET_NONE`, `EM_NONE`, sizes. -/
def FileHeader.new : FileHeader where
  e_ident := [0x7f, 0x45, 0x4c, 0x46, 2, 1, 1, 255, 0, 0, 0, 0, 0, 0, 0, 0]
  e_type := 0
  e_machine := 0
  e_version := 1
  e_entry := 0
  e_phoff := 0
  e_shoff := 0
  e_flags := 0
  e_ehsize := FILE_HEADER_SIZE
  e_phentsize := PROGRAM_HEADER_SIZE
  e_phnum := 0
  e_shentsize := SECTION_HEADER_SIZE
  e_shnum := 0
  e_shstrndx := 0

/-- `bytemuck::bytes_of` for `FileHeader`: 64 little-endian bytes. -/
def FileHeader.bytes (f : FileHeader) : List Nat :=
  f.e_ident ++ leBytes 2 f.e_type ++ leBytes 2 f.e_machine
    ++ leBytes 4 f.e_version ++ leBytes 8 f.e_entry ++ leBytes 8 f.e_phoff
    ++ leBytes 8 f.e_shoff ++ leBytes 4 f.e_flags ++ leBytes 2 f.e_ehsize
    ++ leBytes 2 f.e_phentsize ++ leBytes 2 f.e_phnum
    ++ leBytes 2 f.e_shentsize ++ leBytes 2 f.e_shnum ++ leBytes 2 f.e_shstrndx

/-! ## ELF linker (`link::ElfLinker`) -/

/-- Panics of `ElfLinker::finish`, as error values. -/
inductive LinkError
  | duplicateLabel
  | undefinedLabel
  | relativeOverflow
  | segmentTableOverflow
  | missingEntry
  | sliceOutOfBounds
  | noSegments
  deriving DecidableEq, Repr

/-- `link::ElfLinker`. -/
structure ElfLinker where
  segment_headers : List Phdr
  segments : List Segment
  deriving DecidableEq, Repr

namespace ElfLinker

/-- `ElfLinker::new`. -/
def new : ElfLinker := ⟨[], []⟩

/-- `ElfLinker::add_segment`: append a `PT_LOAD` header (offsets and
addresses resolved in `finish`) and the segment. -/
def add_segment (l : ElfLinker) (flags a : Nat) (segment : Segment) : ElfLinker where
  segment_headers := l.segment_headers ++
    [⟨PT_LOAD, flags, 0, 0, 0, segment.data.length, segment.data.length, a⟩]
  segments := l.segments ++ [segment]

/-- `HashMap::insert` with the `assert!(previous_entry.is_none())` of the
global label table: fails on a duplicate name. -/
def insertLabel (m : List (String × Nat)) (k : String) (v : Nat) :
    Option (List (String × Nat)) :=
  if (m.find? (fun kv => kv.1 = k)).isSome then none
  else some (m ++ [(k, v)])

/-- Merge one segment's labels (at virtual base `vaddr`) into the global
label table. -/
def mergeLabels (m : List (String × Nat)) (ls : List (String × Nat)) (vaddr : Nat) :
    Option (List (String × Nat)) :=
  match ls with
  | [] => some m
  | kv :: rest =>
    match insertLabel m kv.1 (vaddr + kv.2) with
    | none => none
    | some m' => mergeLabels m' rest vaddr

/-- The inter-segment page push of `ElfLinker::finish`: when the running
virtual address is not a multiple of `p_align`, add `p_align` to it
(`current_vaddr += header.p_align`, with no rounding to a boundary). -/
def pageBump (cva a : Nat) : Nat :=
  if cva % a ≠ 0 then cva + a else cva

/-- The layout-and-label loop of `ElfLinker::finish`: assign each header's
`p_offset`/`p_vaddr`/`p_paddr` (applying `pageBump` to the running virtual
address first), and merge all segment labels into the global table. -/
def layoutLoop (cfo cva : Nat) (m : List (String × Nat)) :
    List (Phdr × Segment) → Except LinkError (List Phdr × List (String × Nat))
  | [] => .ok ([], m)
  | pr :: rest =>
    match mergeLabels m pr.2.labels (pageBump cva pr.1.p_align) with
    | none => .error .duplicateLabel
    | some m' =>
      match layoutLoop (cfo + pr.2.data.length)
          (pageBump cva pr.1.p_align + pr.2.data.length) m' rest with
      | .error e => .error e
      | .ok (hdrs, m'') =>
        .ok ({ pr.1 with
                 p_offset := cfo,
                 p_vaddr := pageBump cva pr.1.p_align,
                 p_paddr := pageBump cva pr.1.p_align } :: hdrs, m'')

/-- The fixup-resolution loop of `ElfLinker::finish` for one segment:
each reference is resolved at `p_vaddr + location` against the global
label table and its bytes written into the segment's data. -/
def resolveSegmentRefs (labels : List (String × Nat)) (header : Phdr) :
    Segment → List (String × Reference) → Except LinkError Segment
  | s, [] => .ok s
  | s, lr :: rest =>
    match lookupKV labels lr.1 with
    | none => .error .undefinedLabel
    | some label_location =>
      let reference_location := header.p_vaddr + lr.2.location
      match lr.2.format.resolve reference_location label_location with
      | none => .error .relativeOverflow
      | some reference_value =>
        match writeSlice s.data lr.2.location reference_value with
        | none => .error .sliceOutOfBounds
        | some data' => resolveSegmentRefs labels header { s with data := data' } rest

/-- Resolve the references of every segment against the global table. -/
def resolveAllRefs (labels : List (String × Nat)) :
    List (Phdr × Segment) → Except LinkError (List Segment)
  | [] => .ok []
  | pr :: rest =>
    match resolveSegmentRefs labels pr.1 pr.2 pr.2.references with
    | .error e => .error e
    | .ok s' =>
      match resolveAllRefs labels rest with
      | .error e => .error e
      | .ok ss => .ok (s' :: ss)

/-- The virtual base address hardwired in `ElfLinker::finish`. -/
def START_VADDR : Nat := 0xffffffff80000000

/-- `ElfLinker::finish`: lay out segments, merge labels, resolve fixups,
stamp the file header, and emit header ++ program headers ++ padding ++
segment data.  Every Rust panic along the way is an error result. -/
def finish (l : ElfLinker) : Except LinkError (List Nat) :=
  match l.segment_headers.head? with
  | none => .error .noSegments
  | some header0 =>
    match layoutLoop
        (align_up (FILE_HEADER_SIZE + l.segment_headers.length * PROGRAM_HEADER_SIZE)
          header0.p_align)
        (align_up START_VADDR header0.p_align) []
        (l.segment_headers.zip l.segments) with
    | .error e => .error e
    | .ok (hdrs, labels) =>
      match resolveAllRefs labels (hdrs.zip l.segments) with
      | .error e => .error e
      | .ok segs =>
        match lookupKV labels "entry" with
        | none => .error .missingEntry
        | some entry =>
          if l.segment_headers.length ≤ 0xffff then
            .ok (({ FileHeader.new with
                e_machine := 0x3e
                e_entry := entry
                e_phnum := l.segment_headers.length
                e_phoff := FILE_HEADER_SIZE } : FileHeader).bytes
              ++ (hdrs.map Phdr.bytes).flatten
              ++ List.replicate
                  (align_up
                      (FILE_HEADER_SIZE + l.segment_headers.length * PROGRAM_HEADER_SIZE)
                      header0.p_align
                    - (FILE_HEADER_SIZE + l.segment_headers.length * PROGRAM_HEADER_SIZE))
                  0
              ++ (segs.map Segment.data).flatten)
          else .error .segmentTableOverflow

end ElfLinker

/-! ## Concrete scenario S7: two segments (16 data bytes and 32 code bytes,
both aligned 0x1000) with a single `"entry"` label at code offset 0. -/

/-- The S7 read-write data segment: 16 bytes, no labels. -/
def s7data : Segment := Segment.new.extend (List.replicate 16 0x11)

/-- The S7 code segment: the `"entry"` label at offset 0, then 32 bytes. -/
def s7code : Segment :=
  ((Segment.new.offset_label 0 "entry").getD Segment.new).extend
    (List.replicate 32 0xcc)

/-- The S7 linker: data then code, both requested at alignment 0x1000. -/
def s7linker : ElfLinker :=
  (ElfLinker.new.add_segment (PF_R + PF_W) 0x1000 s7data).add_segment
    (PF_R + PF_X) 0x1000 s7code

/-! ## Scenario segments S2/S3: JMP against a label. -/

/-- S2: `JMP label("x")` immediately followed by `label("x")`. -/
def s2asm : Option Assembler :=
  (Assembler.new.push (singleOption (JMP_label_encode "x"))).bind
    (fun a => a.label "x")

/-- S3: `label("y")` followed by `JMP label("y")`. -/
def s3asm : Option Assembler :=
  (Assembler.new.label "y").bind
    (fun a => a.push (singleOption (JMP_label_encode "y")))

/-! ## Helper lemmas -/

/-- Relative resolution is invariant under translating both locations. -/
theorem resolve_shift (f : ReferenceFormat) (h : f.is_relative = true)
    (own label d : Nat) :
    f.resolve (own + d) (label + d) = f.resolve own label := by
  cases f with
  | rel8 =>
    simp only [ReferenceFormat.resolve]
    by_cases hc : label > own + 1
    · rw [if_pos (by omega), if_pos hc,
        show label + d - (own + d + 1) = label - (own + 1) by omega]
    · rw [if_neg (by omega), if_neg hc,
        show own + d + 1 - (label + d) = own + 1 - label by omega]
  | rel32 =>
    simp only [ReferenceFormat.resolve]
    by_cases hc : label > own + 4
    · rw [if_pos (by omega), if_pos hc,
        show label + d - (own + d + 4) = label - (own + 4) by omega]
    · rw [if_neg (by omega), if_neg hc,
        show own + d + 4 - (label + d) = own + 4 - label by omega]
  | abs32 => simp [ReferenceFormat.is_relative] at h
  | abs64 => simp [ReferenceFormat.is_relative] at h

/-! ## Claim theorems -/

/-- C9: for the relative formats `Rel8` and `Rel32`, reference resolution
is translation-invariant: shifting both the reference location and the
target by the same amount leaves the resolved bytes unchanged (so the
assembler's segment-local resolution writes exactly the bytes that
link-time resolution at the final virtual addresses would). -/
theorem c9_resolve_translation_invariant :
    ∀ (f : ReferenceFormat), f.is_relative = true →
      ∀ own label d : Nat, f.resolve (own + d) (label + d) = f.resolve own label :=
  fun f h own label d => resolve_shift f h own label d

/-- Witness for C9 at `Rel32`, own 10, target 20, shift 3. -/
theorem c9_witness :
    ReferenceFormat.rel32.resolve (10 + 3) (20 + 3) =
      ReferenceFormat.rel32.resolve 10 20 :=
  c9_resolve_translation_invariant .rel32 rfl 10 20 3

/-- C7: `MOV RCX, 0x1122334455667788` serializes to
`48 B9 88 77 66 55 44 33 22 11` and `INC R10` to `49 FF C2`, each with an
empty reference list. -/
theorem c7_encoder_exact_bytes :
    (MOV_r64_imm64_encode .RCX 0x1122334455667788).serialize =
      [0x48, 0xb9, 0x88, 0x77, 0x66, 0x55, 0x44, 0x33, 0x22, 0x11]
    ∧ (MOV_r64_imm64_encode .RCX 0x1122334455667788).references = []
    ∧ (INC_r64_encode .R10).serialize = [0x49, 0xff, 0xc2]
    ∧ (INC_r64_encode .R10).references = [] := by
  refine ⟨rfl, rfl, rfl, rfl⟩

/-- Counterexample to C1: the displacement `-128 = 0 − (127 + 1)` fits in a
signed 8-bit byte, yet `Rel8` resolution fails (the source's negated
`i8::try_from` cannot produce `-128`). -/
theorem c1_cex :
    ReferenceFormat.rel8.resolve 127 0 = none
    ∧ -(2 : Int) ^ 7 ≤ (0 : Int) - ((127 : Int) + 1)
    ∧ (0 : Int) - ((127 : Int) + 1) < 2 ^ 7 := by
  refine ⟨rfl, by decide, by decide⟩

/-- C1 (amended): a resolved `Rel8` reference is overwritten with the
two's-complement byte of `T − (L + 1)` and a `Rel32` reference with the
four little-endian two's-complement bytes of `T − (L + 4)`; resolution
fails exactly when the displacement lies outside
`[−(2^(w−1) − 1), 2^(w−1) − 1]` (the most negative value of each width is
also rejected). -/
theorem c1_resolve_rel_amended :
    ∀ L T : Nat,
      ReferenceFormat.rel8.resolve L T =
        (if -(2 ^ 7 : Int) + 1 ≤ (T : Int) - ((L : Int) + 1)
            ∧ (T : Int) - ((L : Int) + 1) ≤ 2 ^ 7 - 1 then
          some [(((T : Int) - ((L : Int) + 1)) % 2 ^ 8).toNat]
        else none)
      ∧ ReferenceFormat.rel32.resolve L T =
        (if -(2 ^ 31 : Int) + 1 ≤ (T : Int) - ((L : Int) + 4)
            ∧ (T : Int) - ((L : Int) + 4) ≤ 2 ^ 31 - 1 then
          some (leBytes 4 ((((T : Int) - ((L : Int) + 4)) % 2 ^ 32).toNat))
        else none) := by
  intro L T
  constructor
  · simp only [ReferenceFormat.resolve]
    by_cases hc : T > L + 1
    · rw [if_pos hc]
      by_cases h2 : T - (L + 1) ≤ 127
      · rw [if_pos h2, if_pos (by constructor <;> omega)]
        congr 1
        have : (((T : Int) - ((L : Int) + 1)) % 2 ^ 8).toNat = T - (L + 1) := by
          omega
        rw [this]
      · rw [if_neg h2, if_neg (by omega)]
    · rw [if_neg hc]
      by_cases h2 : L + 1 - T ≤ 127
      · rw [if_pos h2, if_pos (by constructor <;> omega)]
        congr 2
        omega
      · rw [if_neg h2, if_neg (by omega)]
  · simp only [ReferenceFormat.resolve]
    by_cases hc : T > L + 4
    · rw [if_pos hc]
      by_cases h2 : T - (L + 4) ≤ 2 ^ 31 - 1
      · rw [if_pos h2, if_pos (by constructor <;> omega)]
        congr 2
        omega
      · rw [if_neg h2, if_neg (by omega)]
    · rw [if_neg hc]
      by_cases h2 : L + 4 - T ≤ 2 ^ 31 - 1
      · rw [if_pos h2, if_pos (by constructor <;> omega)]
        congr 2
        omega
      · rw [if_neg h2, if_neg (by omega)]

/-- C6: `JMP label("x")` then `label("x")` yields bytes `E9 00 00 00 00`
with one `Rel32` reference at offset 1 targeting the byte after the
instruction, and resolution writes displacement `00 00 00 00`; `label("y")`
then `JMP label("y")` resolves to `E9 FB FF FF FF` (displacement −5). -/
theorem c6_jmp_label_scenarios :
    s2asm = some ⟨⟨1, [0xe9, 0, 0, 0, 0], [("x", 5)], [("x", ⟨1, .rel32⟩)]⟩, []⟩
    ∧ (∀ V : Nat, ReferenceFormat.rel32.resolve (V + 1) (V + 5) = some [0, 0, 0, 0])
    ∧ s3asm = some ⟨⟨1, [0xe9, 0, 0, 0, 0], [("y", 0)], [("y", ⟨1, .rel32⟩)]⟩, []⟩
    ∧ (∀ V : Nat, (ReferenceFormat.rel32.resolve (V + 1) V).bind
        (fun bytes => writeSlice [0xe9, 0, 0, 0, 0] 1 bytes) =
        some [0xe9, 0xfb, 0xff, 0xff, 0xff]) := by
  refine ⟨rfl, ?_, rfl, ?_⟩
  · intro V
    rw [show V + 1 = 1 + V by omega, show V + 5 = 5 + V by omega,
      resolve_shift .rel32 rfl 1 5 V]
    rfl
  · intro V
    have e : ReferenceFormat.rel32.resolve (V + 1) V =
        ReferenceFormat.rel32.resolve 1 0 := by
      rw [← resolve_shift .rel32 rfl 1 0 V]
      congr 1 <;> omega
    rw [e]
    rfl

/-- Counterexample to C3: in the S7 scenario the second program header's
`p_offset` (bytes 128..136 of the output) is `0x1010`, not the claimed
`0x2000` (file offsets advance by data length only, and the vaddr page
push adds `p_align` without rounding to a boundary). -/
theorem c3_cex :
    s7linker.finish.map (fun out => (out.drop 128).take 8) =
      .ok (leBytes 8 0x1010)
    ∧ leBytes 8 0x1010 ≠ leBytes 8 0x2000
    ∧ s7linker.finish.map (fun out => (out.drop 136).take 8) =
      .ok (leBytes 8 (ElfLinker.START_VADDR + 0x1010))
    ∧ leBytes 8 (ElfLinker.START_VADDR + 0x1010)
      ≠ leBytes 8 (ElfLinker.START_VADDR + 0x1000)
    ∧ s7linker.finish.map (fun out => (out.drop 24).take 8) =
      .ok (leBytes 8 (ElfLinker.START_VADDR + 0x1010)) := by
  exact ⟨rfl, by decide, rfl, by decide, rfl⟩

/-- C3 (amended): in the S7 scenario, the first 64 output bytes are the
ELF64 file header (machine 0x3E, entry `base + 0x1010`, 2 program headers
at offset 64), the next 112 bytes are the two program headers with
`p_offset` values `0x1000` and `0x1010` and `p_vaddr` values `base` and
`base + 0x1010`, and `e_entry = base + 0x1010`. -/
theorem c3_s7_scenario_amended :
    s7linker.finish.map (fun out => out.take 64) =
      .ok (FileHeader.bytes { FileHeader.new with
        e_machine := 0x3e, e_entry := 0xffffffff80001010,
        e_phnum := 2, e_phoff := 0x40 })
    ∧ s7linker.finish.map (fun out => (out.drop 64).take 112) =
      .ok (Phdr.bytes ⟨1, 6, 0x1000, 0xffffffff80000000, 0xffffffff80000000,
          16, 16, 0x1000⟩
        ++ Phdr.bytes ⟨1, 5, 0x1010, 0xffffffff80001010, 0xffffffff80001010,
          32, 32, 0x1000⟩)
    ∧ s7linker.finish.map (fun out => (out.drop 72).take 8) =
      .ok (leBytes 8 0x1000)
    ∧ s7linker.finish.map (fun out => (out.drop 128).take 8) =
      .ok (leBytes 8 0x1010)
    ∧ s7linker.finish.map (fun out => (out.drop 80).take 8) =
      .ok (leBytes 8 ElfLinker.START_VADDR)
    ∧ s7linker.finish.map (fun out => (out.drop 136).take 8) =
      .ok (leBytes 8 (ElfLinker.START_VADDR + 0x1010))
    ∧ s7linker.finish.map (fun out => (out.drop 24).take 8) =
      .ok (leBytes 8 (ElfLinker.START_VADDR + 0x1010)) := by
  exact ⟨rfl, rfl, rfl, rfl, rfl, rfl, rfl⟩

/-- Counterexample to C2: in the S7 run the second segment's `p_vaddr`
(bytes 136..144 of the output) is `base + 0x1010`, which is not a multiple
of its `p_align = 0x1000` — so it is not "the smallest multiple of p_align
above the running address". -/
theorem c2_cex :
    s7linker.finish.map (fun out => (out.drop 136).take 8) =
      .ok (leBytes 8 0xffffffff80001010)
    ∧ 0xffffffff80001010 % 0x1000 ≠ 0 := by
  exact ⟨rfl, by decide⟩

/-! ## Duplicate-label lemmas for the linker's global label table -/

theorem insertLabel_mono {m m' : List (String × Nat)} {k : String} {v : Nat}
    (h : ElfLinker.insertLabel m k v = some m') (name : String)
    (hm : (m.find? (fun kv => kv.1 = name)).isSome) :
    (m'.find? (fun kv => kv.1 = name)).isSome := by
  unfold ElfLinker.insertLabel at h
  split at h
  · cases h
  · cases h
    cases hf : m.find? (fun kv => kv.1 = name) with
    | none => rw [hf] at hm; cases hm
    | some kv => simp [List.find?_append, hf]

theorem insertLabel_self {m m' : List (String × Nat)} {k : String} {v : Nat}
    (h : ElfLinker.insertLabel m k v = some m') :
    (m'.find? (fun kv => kv.1 = k)).isSome := by
  unfold ElfLinker.insertLabel at h
  split at h
  · cases h
  · cases h
    next hnone =>
      cases hf : m.find? (fun kv => kv.1 = k) with
      | none => simp [List.find?_append, hf]
      | some kv => rw [hf] at hnone; simp at hnone

theorem insertLabel_not_dup {m m' : List (String × Nat)} {k : String} {v : Nat}
    (h : ElfLinker.insertLabel m k v = some m')
    (hm : (m.find? (fun kv => kv.1 = k)).isSome) : False := by
  unfold ElfLinker.insertLabel at h
  split at h
  · cases h
  · next hnone => exact hnone hm

theorem mergeLabels_mono {ls : List (String × Nat)} :
    ∀ {m m' : List (String × Nat)} {v : Nat},
      ElfLinker.mergeLabels m ls v = some m' → ∀ name,
      (m.find? (fun kv => kv.1 = name)).isSome →
      (m'.find? (fun kv => kv.1 = name)).isSome := by
  induction ls with
  | nil => intro m m' v h name hm; cases h; exact hm
  | cons kv rest ih =>
    intro m m' v h name hm
    unfold ElfLinker.mergeLabels at h
    cases hi : ElfLinker.insertLabel m kv.1 (v + kv.2) with
    | none => rw [hi] at h; cases h
    | some m1 =>
      rw [hi] at h
      exact ih h name (insertLabel_mono hi name hm)

theorem mergeLabels_adds {ls : List (String × Nat)} :
    ∀ {m m' : List (String × Nat)} {v : Nat},
      ElfLinker.mergeLabels m ls v = some m' → ∀ name,
      (ls.find? (fun kv => kv.1 = name)).isSome →
      (m'.find? (fun kv => kv.1 = name)).isSome := by
  induction ls with
  | nil => intro m m' v h name hl; cases hl
  | cons kv rest ih =>
    intro m m' v h name hl
    unfold ElfLinker.mergeLabels at h
    cases hi : ElfLinker.insertLabel m kv.1 (v + kv.2) with
    | none => rw [hi] at h; cases h
    | some m1 =>
      rw [hi] at h
      by_cases hk : kv.1 = name
      · subst hk
        exact mergeLabels_mono h kv.1 (insertLabel_self hi)
      · rw [List.find?_cons_of_neg _ (by simpa using hk)] at hl
        exact ih h name hl

theorem mergeLabels_disjoint {ls : List (String × Nat)} :
    ∀ {m m' : List (String × Nat)} {v : Nat},
      ElfLinker.mergeLabels m ls v = some m' → ∀ name,
      (m.find? (fun kv => kv.1 = name)).isSome →
      (ls.find? (fun kv => kv.1 = name)).isSome → False := by
  induction ls with
  | nil => intro m m' v h name hm hl; cases hl
  | cons kv rest ih =>
    intro m m' v h name hm hl
    unfold ElfLinker.mergeLabels at h
    cases hi : ElfLinker.insertLabel m kv.1 (v + kv.2) with
    | none => rw [hi] at h; cases h
    | some m1 =>
      rw [hi] at h
      by_cases hk : kv.1 = name
      · subst hk
        exact insertLabel_not_dup hi hm
      · rw [List.find?_cons_of_neg _ (by simpa using hk)] at hl
        exact ih h name (insertLabel_mono hi name hm) hl

theorem layoutLoop_no_late_dup {pairs : List (Phdr × Segment)} :
    ∀ {cfo cva : Nat} {m : List (String × Nat)}
      {r : List Phdr × List (String × Nat)},
      ElfLinker.layoutLoop cfo cva m pairs = .ok r →
      ∀ j pj, pairs.get? j = some pj → ∀ name,
      (m.find? (fun kv => kv.1 = name)).isSome →
      (pj.2.labels.find? (fun kv => kv.1 = name)).isSome → False := by
  induction pairs with
  | nil => intro cfo cva m r h j pj hj; cases hj
  | cons p rest ih =>
    intro cfo cva m r h j pj hj name hm hp
    unfold ElfLinker.layoutLoop at h
    split at h
    · cases h
    · next m1 hmg =>
        split at h
        · cases h
        · next hdrs m2 hrec =>
            cases j with
            | zero =>
              cases hj
              exact mergeLabels_disjoint hmg name hm hp
            | succ j' =>
              exact ih hrec j' pj hj name (mergeLabels_mono hmg name hm) hp

theorem layoutLoop_pairwise_distinct {pairs : List (Phdr × Segment)} :
    ∀ {cfo cva : Nat} {m : List (String × Nat)}
      {r : List Phdr × List (String × Nat)},
      ElfLinker.layoutLoop cfo cva m pairs = .ok r →
      ∀ i j pi pj, i < j → pairs.get? i = some pi → pairs.get? j = some pj →
      ∀ name,
      (pi.2.labels.find? (fun kv => kv.1 = name)).isSome →
      (pj.2.labels.find? (fun kv => kv.1 = name)).isSome → False := by
  induction pairs with
  | nil => intro cfo cva m r h i j pi pj hij hi; cases hi
  | cons p rest ih =>
    intro cfo cva m r h i j pi pj hij hi hj name hni hnj
    unfold ElfLinker.layoutLoop at h
    split at h
    · cases h
    · next m1 hmg =>
        split at h
        · cases h
        · next hdrs m2 hrec =>
            cases i with
            | zero =>
              cases hi
              cases j with
              | zero => omega
              | succ j' =>
                exact layoutLoop_no_late_dup hrec j' pj hj name
                  (mergeLabels_adds hmg name hni) hnj
            | succ i' =>
              cases j with
              | zero => omega
              | succ j' =>
                exact ih hrec i' j' pi pj (by omega) hi hj name hni hnj

theorem layoutLoop_error_is_dup {pairs : List (Phdr × Segment)} :
    ∀ {cfo cva : Nat} {m : List (String × Nat)} {e : LinkError},
      ElfLinker.layoutLoop cfo cva m pairs = .error e → e = .duplicateLabel := by
  induction pairs with
  | nil => intro cfo cva m e h; cases h
  | cons p rest ih =>
    intro cfo cva m e h
    unfold ElfLinker.layoutLoop at h
    split at h
    · cases h; rfl
    · next m1 hmg =>
        split at h
        · next e1 hrec =>
            cases h
            exact ih hrec
        · cases h

/-- C8: declaring a label whose name already exists in the same segment
fails with DuplicateLabel, and at link time the same name defined in two
different segments makes `finish` fail with DuplicateLabel, producing no
output bytes. -/
theorem c8_duplicate_label :
    (∀ (s : Segment) (off : Nat) (name : String),
      (s.labels.find? (fun kv => kv.1 = name)).isSome →
      s.offset_label off name = none)
    ∧ (∀ (l : ElfLinker) (i j : Nat) (si sj : Segment) (name : String),
        i < j →
        l.segment_headers.length = l.segments.length →
        l.segments.get? i = some si → l.segments.get? j = some sj →
        (si.labels.find? (fun kv => kv.1 = name)).isSome →
        (sj.labels.find? (fun kv => kv.1 = name)).isSome →
        l.finish = .error .duplicateLabel) := by
  constructor
  · intro s off name h
    unfold Segment.offset_label
    rw [if_pos h]
  · intro l i j si sj name hij hlen hsi hsj hni hnj
    have hjlt : j < l.segments.length := by
      rcases List.get?_eq_some.mp hsj with ⟨hl, _⟩
      exact hl
    have hpairs_i : (l.segment_headers.zip l.segments).get? i =
        some (l.segment_headers.get ⟨i, by omega⟩, si) := by
      rw [List.get?_zip_eq_some]
      exact ⟨List.get?_eq_get (by omega), hsi⟩
    have hpairs_j : (l.segment_headers.zip l.segments).get? j =
        some (l.segment_headers.get ⟨j, by omega⟩, sj) := by
      rw [List.get?_zip_eq_some]
      exact ⟨List.get?_eq_get (by omega), hsj⟩
    have hhd : ∃ h0 t, l.segment_headers = h0 :: t := by
      cases hsh : l.segment_headers with
      | nil => rw [hsh] at hlen; simp at hlen; omega
      | cons h0 t => exact ⟨h0, t, rfl⟩
    obtain ⟨h0, t, hsh⟩ := hhd
    unfold ElfLinker.finish
    rw [hsh]
    simp only [List.head?]
    rw [← hsh]
    cases hlay : ElfLinker.layoutLoop
        (align_up (FILE_HEADER_SIZE + l.segment_headers.length * PROGRAM_HEADER_SIZE)
          h0.p_align)
        (align_up ElfLinker.START_VADDR h0.p_align) []
        (l.segment_headers.zip l.segments) with
    | error e =>
      have he : e = .duplicateLabel := layoutLoop_error_is_dup hlay
      subst he
      rfl
    | ok r =>
      exact (layoutLoop_pairwise_distinct hlay i j _ _ hij hpairs_i hpairs_j
        name hni hnj).elim

/-! ## S8 scenario: the same label defined in two segments. -/

/-- S8 first segment: defines `"dup"` at offset 0, one data byte. -/
def s8seg1 : Segment :=
  ((Segment.new.label "dup").getD Segment.new).extend [0x11]

/-- S8 second segment: also defines `"dup"`. -/
def s8seg2 : Segment :=
  ((Segment.new.label "dup").getD Segment.new).extend [0x22]

/-- S8 linker holding both segments. -/
def s8linker : ElfLinker :=
  (ElfLinker.new.add_segment PF_R 8 s8seg1).add_segment PF_R 8 s8seg2

/-- Witness for C8 at the S8 scenario: linking two segments that both
define `"dup"` fails with DuplicateLabel. -/
theorem c8_witness : s8linker.finish = .error .duplicateLabel :=
  c8_duplicate_label.2 s8linker 0 1 s8seg1 s8seg2 "dup" (by decide) rfl rfl rfl
    (by decide) (by decide)

/-! ## Emission-structure lemmas -/

theorem Phdr_bytes_length (p : Phdr) : (Phdr.bytes p).length = 56 := by
  simp [Phdr.bytes, leBytes_length]

theorem FileHeader_bytes_length (f : FileHeader) (h : f.e_ident.length = 16) :
    (FileHeader.bytes f).length = 64 := by
  simp [FileHeader.bytes, leBytes_length, List.length_append, h]

theorem layoutLoop_offsets {pairs : List (Phdr × Segment)} :
    ∀ {cfo cva : Nat} {m : List (String × Nat)} {hdrs : List Phdr}
      {mfin : List (String × Nat)},
      ElfLinker.layoutLoop cfo cva m pairs = .ok (hdrs, mfin) →
      hdrs.length = pairs.length
      ∧ (∀ h0 ∈ hdrs.head?, h0.p_offset = cfo)
      ∧ (∀ h0 ∈ hdrs.head?, h0.p_vaddr = ElfLinker.pageBump cva h0.p_align)
      ∧ (∀ i hi pi, hdrs.get? i = some hi → pairs.get? i = some pi →
          hi.p_align = pi.1.p_align)
      ∧ (∀ i hi hnext pi, hdrs.get? i = some hi → hdrs.get? (i + 1) = some hnext →
          pairs.get? i = some pi →
          hnext.p_offset = hi.p_offset + pi.2.data.length
          ∧ hnext.p_vaddr =
              ElfLinker.pageBump (hi.p_vaddr + pi.2.data.length) hnext.p_align) := by
  induction pairs with
  | nil =>
    intro cfo cva m hdrs mfin h
    cases h
    refine ⟨rfl, ?_, ?_, ?_, ?_⟩
    · intro h0 h; cases h
    · intro h0 h; cases h
    · intro i hi pi h; cases h
    · intro i hi hnext pi h; cases h
  | cons p rest ih =>
    intro cfo cva m hdrs mfin h
    unfold ElfLinker.layoutLoop at h
    split at h
    · cases h
    · next m1 hmg =>
        split at h
        · cases h
        · next hdrs1 m2 hrec =>
            cases h
            obtain ⟨ihlen, ihoff, ihva, ihal, ihcons⟩ := ih hrec
            refine ⟨by simpa using ihlen, ?_, ?_, ?_, ?_⟩
            · intro h0 hh
              cases hh
              rfl
            · intro h0 hh
              cases hh
              rfl
            · intro i hi pi hhi hpi
              cases i with
              | zero => cases hhi; cases hpi; rfl
              | succ i' => exact ihal i' hi pi hhi hpi
            · intro i hi hnext pi hhi hhn hpi
              cases i with
              | zero =>
                cases hhi
                cases hpi
                have hh0 : hdrs1.head? = some hnext := by
                  cases hdrs1 with
                  | nil => cases hhn
                  | cons a t => exact hhn
                constructor
                · have := ihoff hnext hh0
                  simpa using this
                · have := ihva hnext hh0
                  simpa using this
              | succ i' => exact ihcons i' hi hnext pi hhi hhn hpi

/-- C5: every successful `linker.finish` output is the 64-byte ELF64 file
header (magic `\x7fELF`, ELFCLASS64, ELFDATA2LSB, EV_CURRENT, OSABI
STANDALONE 255, `e_type` ET_NONE, `e_machine` 0x3E, `e_entry` the resolved
global address of `"entry"`, `e_phoff` 64, `e_phnum` N, `e_shoff` 0,
`e_shnum` 0), then the N 56-byte program headers, then
`align_up(phdr_end, seg[0].p_align) − phdr_end` zero bytes, then each
segment's data in order. -/
theorem c5_emission_structure :
    ∀ (l : ElfLinker) (out : List Nat), l.finish = .ok out →
    ∃ header0 hdrs labels segs entry,
      l.segment_headers.head? = some header0
      ∧ ElfLinker.layoutLoop
          (align_up (FILE_HEADER_SIZE + l.segment_headers.length * PROGRAM_HEADER_SIZE)
            header0.p_align)
          (align_up ElfLinker.START_VADDR header0.p_align) []
          (l.segment_headers.zip l.segments) = .ok (hdrs, labels)
      ∧ ElfLinker.resolveAllRefs labels (hdrs.zip l.segments) = .ok segs
      ∧ lookupKV labels "entry" = some entry
      ∧ l.segment_headers.length ≤ 0xffff
      ∧ out =
          ({ FileHeader.new with
              e_machine := 0x3e, e_entry := entry,
              e_phnum := l.segment_headers.length,
              e_phoff := FILE_HEADER_SIZE } : FileHeader).bytes
          ++ (hdrs.map Phdr.bytes).flatten
          ++ List.replicate
              (align_up (FILE_HEADER_SIZE + l.segment_headers.length * PROGRAM_HEADER_SIZE)
                  header0.p_align
                - (FILE_HEADER_SIZE + l.segment_headers.length * PROGRAM_HEADER_SIZE))
              0
          ++ (segs.map Segment.data).flatten
      ∧ (({ FileHeader.new with
              e_machine := 0x3e, e_entry := entry,
              e_phnum := l.segment_headers.length,
              e_phoff := FILE_HEADER_SIZE } : FileHeader).bytes).length = 64
      ∧ (∀ p ∈ hdrs, (Phdr.bytes p).length = 56)
      ∧ out.take 16 = [0x7f, 0x45, 0x4c, 0x46, 2, 1, 1, 255, 0, 0, 0, 0, 0, 0, 0, 0] := by
  intro l out h
  unfold ElfLinker.finish at h
  split at h
  · cases h
  · next header0 hhd =>
      split at h
      · cases h
      · next hdrs labels hlay =>
          split at h
          · cases h
          · next segs hres =>
              split at h
              · cases h
              · next entry hent =>
                  split at h
                  · next hn =>
                      cases h
                      refine ⟨header0, hdrs, labels, segs, entry,
                        hhd, hlay, hres, hent, hn, rfl, ?_, ?_, ?_⟩
                      · exact FileHeader_bytes_length _ rfl
                      · intro p _
                        exact Phdr_bytes_length p
                      · rw [show (16 : Nat) =
                          ([0x7f, 0x45, 0x4c, 0x46, 2, 1, 1, 255,
                            0, 0, 0, 0, 0, 0, 0, 0] : List Nat).length by rfl]
                        rw [FileHeader.bytes]
                        rw [List.append_assoc, List.append_assoc, List.append_assoc,
                          List.append_assoc, List.append_assoc, List.append_assoc,
                          List.append_assoc, List.append_assoc, List.append_assoc,
                          List.append_assoc, List.append_assoc, List.append_assoc,
                          List.append_assoc, List.append_assoc, List.append_assoc]
                        exact List.take_left' rfl
                  · cases h

/-- C2 (amended): the first segment's file offset is
`align_up(FILE_HEADER_SIZE + N·PROGRAM_HEADER_SIZE, seg[0].p_align)`; for
every subsequent segment, if the running virtual address is not a multiple
of that segment's `p_align` the code adds `p_align` to it (preserving the
residue — the result need not be an alignment boundary); file offsets
advance strictly by the preceding segment's data length, with no
intra-file padding between segments. -/
theorem c2_layout_amended :
    ∀ (l : ElfLinker) (out : List Nat), l.finish = .ok out →
    ∃ header0 hdrs labels,
      l.segment_headers.head? = some header0
      ∧ ElfLinker.layoutLoop
          (align_up (FILE_HEADER_SIZE + l.segment_headers.length * PROGRAM_HEADER_SIZE)
            header0.p_align)
          (align_up ElfLinker.START_VADDR header0.p_align) []
          (l.segment_headers.zip l.segments) = .ok (hdrs, labels)
      ∧ (∀ h0 ∈ hdrs.head?, h0.p_offset =
          align_up (FILE_HEADER_SIZE + l.segment_headers.length * PROGRAM_HEADER_SIZE)
            header0.p_align)
      ∧ (∀ i hi hnext si, hdrs.get? i = some hi → hdrs.get? (i + 1) = some hnext →
          l.segments.get? i = some si →
          hnext.p_offset = hi.p_offset + si.data.length
          ∧ hnext.p_vaddr =
              (if (hi.p_vaddr + si.data.length) % hnext.p_align ≠ 0 then
                hi.p_vaddr + si.data.length + hnext.p_align
              else hi.p_vaddr + si.data.length)) := by
  intro l out h
  unfold ElfLinker.finish at h
  split at h
  · cases h
  · next header0 hhd =>
      split at h
      · cases h
      · next hdrs labels hlay =>
          obtain ⟨hlen, hoff, _, _, hcons⟩ := layoutLoop_offsets hlay
          refine ⟨header0, hdrs, labels, hhd, hlay, hoff, ?_⟩
          intro i hi hnext si hhi hhn hsi
          have hilt : i + 1 ≤ (l.segment_headers.zip l.segments).length := by
            rcases List.get?_eq_some.mp hhn with ⟨hl, _⟩
            omega
          have hplt : i < (l.segment_headers.zip l.segments).length := by omega
          have hpi : (l.segment_headers.zip l.segments).get? i =
              some ((l.segment_headers.zip l.segments).get ⟨i, hplt⟩) :=
            List.get?_eq_get hplt
          obtain ⟨hpi1, hpi2⟩ :=
            (List.get?_zip_eq_some _ _ _ _).mp hpi
          have hsieq : ((l.segment_headers.zip l.segments).get ⟨i, hplt⟩).2 = si := by
            rw [hsi] at hpi2
            exact (Option.some.inj hpi2).symm
          have := hcons i hi hnext _ hhi hhn hpi
          rw [hsieq] at this
          exact ⟨this.1, by rw [this.2]; rfl⟩

/-- A minimal successful link: one one-byte segment defining `"entry"`. -/
def w1seg : Segment :=
  ((Segment.new.label "entry").getD Segment.new).extend [0x90]

/-- Linker holding the minimal segment at alignment 1. -/
def w1linker : ElfLinker := ElfLinker.new.add_segment PF_R 1 w1seg

/-- The byte image of the minimal successful link. -/
def w1ok : List Nat := (w1linker.finish).toOption.getD []

/-- Witness for C5 at the minimal one-segment link. -/
theorem c5_witness :
    ∃ header0 hdrs labels segs entry,
      w1linker.segment_headers.head? = some header0
      ∧ ElfLinker.layoutLoop
          (align_up
            (FILE_HEADER_SIZE + w1linker.segment_headers.length * PROGRAM_HEADER_SIZE)
            header0.p_align)
          (align_up ElfLinker.START_VADDR header0.p_align) []
          (w1linker.segment_headers.zip w1linker.segments) = .ok (hdrs, labels)
      ∧ ElfLinker.resolveAllRefs labels (hdrs.zip w1linker.segments) = .ok segs
      ∧ lookupKV labels "entry" = some entry
      ∧ w1linker.segment_headers.length ≤ 0xffff
      ∧ w1ok =
          ({ FileHeader.new with
              e_machine := 0x3e, e_entry := entry,
              e_phnum := w1linker.segment_headers.length,
              e_phoff := FILE_HEADER_SIZE } : FileHeader).bytes
          ++ (hdrs.map Phdr.bytes).flatten
          ++ List.replicate
              (align_up
                  (FILE_HEADER_SIZE + w1linker.segment_headers.length * PROGRAM_HEADER_SIZE)
                  header0.p_align
                - (FILE_HEADER_SIZE + w1linker.segment_headers.length * PROGRAM_HEADER_SIZE))
              0
          ++ (segs.map Segment.data).flatten
      ∧ (({ FileHeader.new with
              e_machine := 0x3e, e_entry := entry,
              e_phnum := w1linker.segment_headers.length,
              e_phoff := FILE_HEADER_SIZE } : FileHeader).bytes).length = 64
      ∧ (∀ p ∈ hdrs, (Phdr.bytes p).length = 56)
      ∧ w1ok.take 16 = [0x7f, 0x45, 0x4c, 0x46, 2, 1, 1, 255, 0, 0, 0, 0, 0, 0, 0, 0] :=
  c5_emission_structure w1linker w1ok rfl

/-- Witness for C2 at the two-segment S7 linker. -/
theorem c2_witness :
    ∃ header0 hdrs labels,
      s7linker.segment_headers.head? = some header0
      ∧ ElfLinker.layoutLoop
          (align_up
            (FILE_HEADER_SIZE + s7linker.segment_headers.length * PROGRAM_HEADER_SIZE)
            header0.p_align)
          (align_up ElfLinker.START_VADDR header0.p_align) []
          (s7linker.segment_headers.zip s7linker.segments) = .ok (hdrs, labels)
      ∧ (∀ h0 ∈ hdrs.head?, h0.p_offset =
          align_up
            (FILE_HEADER_SIZE + s7linker.segment_headers.length * PROGRAM_HEADER_SIZE)
            header0.p_align)
      ∧ (∀ i hi hnext si, hdrs.get? i = some hi → hdrs.get? (i + 1) = some hnext →
          s7linker.segments.get? i = some si →
          hnext.p_offset = hi.p_offset + si.data.length
          ∧ hnext.p_vaddr =
              (if (hi.p_vaddr + si.data.length) % hnext.p_align ≠ 0 then
                hi.p_vaddr + si.data.length + hnext.p_align
              else hi.p_vaddr + si.data.length)) := by
  have hok : s7linker.finish = .ok ((s7linker.finish).toOption.getD []) := rfl
  exact c2_layout_amended s7linker _ hok

/-! ## Lemmas for the shortest-viable sweep (C4) -/

theorem patchRefsList_ok_length {refs : List (String × Reference)} :
    ∀ (s : Segment) (ploc : Nat) (enc enc' : List Nat),
      Assembler.patchRefsList s ploc enc refs = .ok (some enc') →
      enc'.length = enc.length := by
  induction refs with
  | nil =>
    intro s ploc enc enc' h
    cases h
    rfl
  | cons lr rest ih =>
    intro s ploc enc enc' h
    unfold Assembler.patchRefsList at h
    split at h
    · cases h
    · next L hL =>
        split at h
        · cases h
        · next bytes hres =>
            split at h
            · cases h
            · next enc1 hws =>
                rw [ih s ploc enc1 enc' h, writeSlice_length hws]

theorem tryOptions_cons (s : Segment) (p : PendingInstruction)
    (o : InstructionBuilder) (rest : List InstructionBuilder) :
    Assembler.tryOptions s p (o :: rest) =
      match Assembler.patchRefsList s p.location o.serialize o.references with
      | .error e => .error e
      | .ok none => Assembler.tryOptions s p rest
      | .ok (some encoded) =>
        if encoded.length ≤ p.size then
          match writeSlice s.data p.location
              (encoded ++ List.replicate (p.size - encoded.length) 0x90) with
          | none => .error .sliceOutOfBounds
          | some data' => .ok { s with data := data' }
        else .error .sliceOutOfBounds := rfl

theorem tryOptions_all_nonviable {opts : List InstructionBuilder} :
    ∀ (s : Segment) (p : PendingInstruction),
      (∀ o ∈ opts,
        Assembler.patchRefsList s p.location o.serialize o.references = .ok none) →
      Assembler.tryOptions s p opts = .error .noViableEncoding := by
  induction opts with
  | nil => intro s p _; rfl
  | cons o rest ih =>
    intro s p hall
    rw [tryOptions_cons, hall o (by simp)]
    exact ih s p (fun o' ho' => hall o' (by simp [ho']))

theorem tryOptions_first_viable {pre : List InstructionBuilder} :
    ∀ (s : Segment) (p : PendingInstruction)
      (o : InstructionBuilder) (post : List InstructionBuilder) (enc : List Nat),
      (∀ o' ∈ pre,
        Assembler.patchRefsList s p.location o'.serialize o'.references = .ok none) →
      Assembler.patchRefsList s p.location o.serialize o.references = .ok (some enc) →
      enc.length ≤ p.size →
      p.location + p.size ≤ s.data.length →
      Assembler.tryOptions s p (pre ++ o :: post) =
        .ok { s with data :=
          s.data.take p.location
          ++ (enc ++ List.replicate (p.size - enc.length) 0x90)
          ++ s.data.drop (p.location + p.size) } := by
  induction pre with
  | nil =>
    intro s p o post enc hvac hok hsz hwin
    have hcl : (enc ++ List.replicate (p.size - enc.length) 0x90).length = p.size := by
      simp
      omega
    have hws : writeSlice s.data p.location
        (enc ++ List.replicate (p.size - enc.length) 0x90) =
        some (s.data.take p.location
          ++ (enc ++ List.replicate (p.size - enc.length) 0x90)
          ++ s.data.drop (p.location + p.size)) := by
      unfold writeSlice
      rw [hcl, if_pos hwin]
    rw [List.nil_append, tryOptions_cons, hok]
    simp [hsz, hws]
  | cons o' pre2 ih =>
    intro s p o post enc hpre hok hsz hwin
    rw [List.cons_append, tryOptions_cons, hpre o' (by simp)]
    exact ih s p o post enc (fun o2 ho2 => hpre o2 (by simp [ho2])) hok hsz hwin

/-- C4: a pending instruction all of whose candidates' referenced labels
are defined in the segment and whose references are all relative is
retained by the forced-largest sweep; the shortest-viable sweep then
commits the first candidate (in listed order) whose references all
resolve at the instruction's actual location, NOP-filling the unused tail
of the reservation, with the committed length within the reserved size,
and fails with NoViableEncoding when no candidate resolves. -/
theorem c4_shortest_viable :
    ∀ (s : Segment) (p : PendingInstruction),
      (∀ o ∈ p.options, ∀ lr ∈ o.references, (s.label_location lr.1).isSome) →
      (∀ o ∈ p.options, ∀ lr ∈ o.references, lr.2.format.is_relative = true) →
      (∀ o ∈ p.options, o.serialize.length ≤ p.size) →
      p.location + p.size ≤ s.data.length →
      p.options ≠ [] →
      Assembler.sweep1Step s p = .ok (s, some p)
      ∧ ((∀ o ∈ p.options,
            Assembler.patchRefsList s p.location o.serialize o.references = .ok none) →
          Assembler.resolvePending s p = .error .noViableEncoding)
      ∧ (∀ pre o post, p.options = pre ++ o :: post →
          (∀ o' ∈ pre,
            Assembler.patchRefsList s p.location o'.serialize o'.references = .ok none) →
          ∀ enc,
            Assembler.patchRefsList s p.location o.serialize o.references = .ok (some enc) →
            enc.length = o.serialize.length
            ∧ enc.length ≤ p.size
            ∧ Assembler.resolvePending s p =
                .ok { s with data :=
                  s.data.take p.location
                  ++ (enc ++ List.replicate (p.size - enc.length) 0x90)
                  ++ s.data.drop (p.location + p.size) }) := by
  intro s p hdef hrel hsz hwin hne
  refine ⟨?_, ?_, ?_⟩
  · unfold Assembler.sweep1Step
    cases hlast : p.options.getLast? with
    | none => exact absurd (List.getLast?_eq_none_iff.mp hlast) hne
    | some enc =>
      have hmem : enc ∈ p.options :=
        List.mem_of_mem_getLast? (by rw [hlast]; rfl)
      have hany : enc.references.any (fun lr =>
          (s.label_location lr.1).isNone || !lr.2.format.is_relative) = false := by
        rw [List.any_eq_false]
        intro lr hlr
        have h1 := hdef enc hmem lr hlr
        have h2 := hrel enc hmem lr hlr
        cases hx : s.label_location lr.1 with
        | none => rw [hx] at h1; cases h1
        | some L => simp [hx, h2]
      simp [hany]
  · intro hall
    exact tryOptions_all_nonviable s p hall
  · intro pre o post hsplit hpre enc hok
    have hmem : o ∈ p.options := by rw [hsplit]; simp
    have hlen : enc.length = o.serialize.length :=
      patchRefsList_ok_length s p.location o.serialize enc hok
    have hsz' : enc.length ≤ p.size := by rw [hlen]; exact hsz o hmem
    refine ⟨hlen, hsz', ?_⟩
    unfold Assembler.resolvePending
    rw [hsplit]
    exact tryOptions_first_viable s p o post enc hpre hok hsz' hwin

/-- Concrete state for the C4 witness: a 5-byte window and a defined
label `"x"` at offset 5. -/
def c4wseg : Segment := ⟨1, List.replicate 5 0, [("x", 5)], []⟩

/-- Concrete pending instruction for the C4 witness. -/
def c4wpend : PendingInstruction := ⟨0, 5, [JMP_label_encode "x"]⟩

/-- Witness for C4: the concrete pending is retained by the
forced-largest sweep. -/
theorem c4_witness :
    Assembler.sweep1Step c4wseg c4wpend = .ok (c4wseg, some c4wpend) :=
  (c4_shortest_viable c4wseg c4wpend (by decide) (by decide) (by decide)
    (by decide) (by decide)).1

/-! ## Frame lemmas for `Assembler::finish` (C10) -/

theorem writeSlice_getElem_outside {data : List Nat} {loc : Nat}
    {bytes d' : List Nat} (h : writeSlice data loc bytes = some d') (i : Nat)
    (hout : i < loc ∨ loc + bytes.length ≤ i) : d'[i]? = data[i]? := by
  unfold writeSlice at h
  split at h
  · next hle =>
      cases h
      have hlt : loc ≤ data.length := by omega
      have htl : (data.take loc).length = loc := by
        simp [List.length_take]
        omega
      rcases hout with h1 | h2
      · rw [List.append_assoc,
          List.getElem?_append_left (by rw [htl]; omega : i < (data.take loc).length)]
        exact List.getElem?_take_of_lt h1
      · rw [List.append_assoc,
          List.getElem?_append_right (by rw [htl]; omega : (data.take loc).length ≤ i),
          List.getElem?_append_right (by rw [htl]; omega : bytes.length ≤ i - (data.take loc).length),
          List.getElem?_drop]
        congr 1
        rw [htl]
        omega
  · cases h

theorem label_location_congr {s1 s2 : Segment} (h : s1.labels = s2.labels)
    (n : String) : s1.label_location n = s2.label_location n := by
  unfold Segment.label_location lookupKV
  rw [h]

theorem tryOptions_frame {opts : List InstructionBuilder} :
    ∀ (s : Segment) (p : PendingInstruction) (s' : Segment),
      Assembler.tryOptions s p opts = .ok s' →
      s'.alignment = s.alignment ∧ s'.labels = s.labels
      ∧ s'.references = s.references
      ∧ s'.data.length = s.data.length
      ∧ (∀ i, i < p.location ∨ p.location + p.size ≤ i →
          s'.data[i]? = s.data[i]?) := by
  induction opts with
  | nil => intro s p s' h; cases h
  | cons o rest ih =>
    intro s p s' h
    rw [tryOptions_cons] at h
    split at h
    · cases h
    · exact ih s p s' h
    · next encoded hpat =>
        split at h
        · next hsz =>
            split at h
            · cases h
            · next data' hws =>
                cases h
                have hcl : (encoded
                    ++ List.replicate (p.size - encoded.length) 0x90).length = p.size := by
                  simp
                  omega
                refine ⟨rfl, rfl, rfl, ?_, ?_⟩
                · simpa using writeSlice_length hws
                · intro i hi
                  exact writeSlice_getElem_outside hws i (by rw [hcl]; exact hi)
        · cases h

theorem sweep2_frame {ps : List PendingInstruction} :
    ∀ (s s' : Segment), Assembler.sweep2 s ps = .ok s' →
      s'.alignment = s.alignment ∧ s'.labels = s.labels
      ∧ s'.references = s.references
      ∧ s'.data.length = s.data.length
      ∧ (∀ i, (∀ p ∈ ps, i < p.location ∨ p.location + p.size ≤ i) →
          s'.data[i]? = s.data[i]?) := by
  induction ps with
  | nil =>
    intro s s' h
    cases h
    exact ⟨rfl, rfl, rfl, rfl, fun i _ => rfl⟩
  | cons p rest ih =>
    intro s s' h
    unfold Assembler.sweep2 at h
    split at h
    · cases h
    · next s1 hres =>
        obtain ⟨ha1, hl1, hr1, hd1, ho1⟩ := tryOptions_frame s p s1 hres
        obtain ⟨ha2, hl2, hr2, hd2, ho2⟩ := ih s1 s' h
        refine ⟨ha2.trans ha1, hl2.trans hl1, hr2.trans hr1, hd2.trans hd1, ?_⟩
        intro i hi
        rw [ho2 i (fun q hq => hi q (by simp [hq]))]
        exact ho1 i (hi p (by simp))

theorem foldl_absolute_reference (refs : List (String × Reference)) :
    ∀ (s : Segment) (base : Nat),
      refs.foldl (fun s2 lr =>
        s2.absolute_reference (base + lr.2.location) lr.1 lr.2.format) s
      = { s with references := s.references
          ++ refs.map (fun lr => (lr.1, ⟨base + lr.2.location, lr.2.format⟩)) } := by
  induction refs with
  | nil => intro s base; simp
  | cons lr rest ih =>
    intro s base
    rw [List.foldl_cons, ih]
    simp [Segment.absolute_reference]

theorem sweep1Step_frame (s : Segment) (p : PendingInstruction)
    {s1 : Segment} {kept : Option PendingInstruction}
    (h : Assembler.sweep1Step s p = .ok (s1, kept)) :
    s1.alignment = s.alignment ∧ s1.labels = s.labels
    ∧ s1.data.length = s.data.length
    ∧ (∀ i, i < p.location ∨ p.location + p.size ≤ i →
        s1.data[i]? = s.data[i]?)
    ∧ ((s1 = s ∧ kept = some p)
       ∨ (kept = none ∧ ∃ o, p.options.getLast? = some o
           ∧ o.references.any (fun lr => (s.label_location lr.1).isNone
               || !lr.2.format.is_relative) = true
           ∧ s1.references = s.references
               ++ o.references.map
                  (fun lr => (lr.1, ⟨p.location + lr.2.location, lr.2.format⟩)))) := by
  unfold Assembler.sweep1Step at h
  split at h
  · cases h
  · next encoding hlast =>
      split at h
      · next hany =>
          split at h
          · next hsz =>
              split at h
              · cases h
              · next data' hws =>
                  rw [foldl_absolute_reference] at h
                  cases h
                  have hcl : (encoding.serialize
                      ++ List.replicate (p.size - encoding.serialize.length) 0x90).length
                      = p.size := by
                    simp
                    omega
                  refine ⟨rfl, rfl, ?_, ?_,
                    .inr ⟨rfl, encoding, hlast, hany, rfl⟩⟩
                  · simpa using writeSlice_length hws
                  · intro i hi
                    exact writeSlice_getElem_outside hws i (by rw [hcl]; exact hi)
          · cases h
      · cases h
        exact ⟨rfl, rfl, rfl, fun i _ => rfl, .inl ⟨rfl, rfl⟩⟩

theorem sweep1_frame {ps : List PendingInstruction} :
    ∀ (s s1 : Segment) (kept : List PendingInstruction),
      Assembler.sweep1 s ps = .ok (s1, kept) →
      s1.alignment = s.alignment ∧ s1.labels = s.labels
      ∧ s1.data.length = s.data.length
      ∧ (∀ i, (∀ p ∈ ps, i < p.location ∨ p.location + p.size ≤ i) →
          s1.data[i]? = s.data[i]?)
      ∧ (∃ extra, s1.references = s.references ++ extra
          ∧ ∀ e ∈ extra, ∃ p, p ∈ ps ∧ ∃ o, p.options.getLast? = some o
              ∧ o.references.any (fun lr => (s.label_location lr.1).isNone
                  || !lr.2.format.is_relative) = true
              ∧ ∃ lr, lr ∈ o.references
                  ∧ e = (lr.1, ⟨p.location + lr.2.location, lr.2.format⟩))
      ∧ (∀ q ∈ kept, q ∈ ps) := by
  induction ps with
  | nil =>
    intro s s1 kept h
    cases h
    refine ⟨rfl, rfl, rfl, fun i _ => rfl, ⟨[], by simp, by simp⟩, by simp⟩
  | cons p rest ih =>
    intro s s1 kept h
    unfold Assembler.sweep1 at h
    split at h
    · cases h
    · next s' hstep =>
        obtain ⟨ha1, hl1, hd1, ho1, hcase⟩ := sweep1Step_frame s p hstep
        obtain ⟨ha2, hl2, hd2, ho2, ⟨extra2, hre2, hemem2⟩, hkept2⟩ :=
          ih s' s1 kept h
        rcases hcase with ⟨hseq, _⟩ | ⟨_, o, hlasto, hanyo, hrefs'⟩
        · subst hseq
          refine ⟨ha2, hl2, hd2, ?_, ⟨extra2, hre2, ?_⟩, ?_⟩
          · intro i hi
            exact ho2 i (fun q hq => hi q (by simp [hq]))
          · intro e he
            obtain ⟨q, hq, rest_ex⟩ := hemem2 e he
            exact ⟨q, by simp [hq], rest_ex⟩
          · intro q hq
            simp [hkept2 q hq]
        · refine ⟨ha2.trans ha1, hl2.trans hl1, hd2.trans hd1, ?_, ?_, ?_⟩
          · intro i hi
            rw [ho2 i (fun q hq => hi q (by simp [hq]))]
            exact ho1 i (hi p (by simp))
          · refine ⟨o.references.map
              (fun lr => (lr.1, ⟨p.location + lr.2.location, lr.2.format⟩))
              ++ extra2, ?_, ?_⟩
            · rw [hre2, hrefs', List.append_assoc]
            · intro e he
              rw [List.mem_append] at he
              rcases he with he | he
              · rcases List.mem_map.mp he with ⟨lr, hlr, hlr2⟩
                exact ⟨p, by simp, o, hlasto, hanyo, lr, hlr, hlr2.symm⟩
              · obtain ⟨q, hq, oq, hoq, hanyq, exq⟩ := hemem2 e he
                refine ⟨q, by simp [hq], oq, hoq, ?_, exq⟩
                have hfun : (fun lr : String × Reference =>
                    (s'.label_location lr.1).isNone || !lr.2.format.is_relative)
                    = (fun lr : String × Reference =>
                    (s.label_location lr.1).isNone || !lr.2.format.is_relative) := by
                  funext lr
                  rw [label_location_congr hl1]
                rw [hfun] at hanyq
                exact hanyq
          · intro q hq
            simp [hkept2 q hq]
    · next s' p' hstep =>
        split at h
        · cases h
        · next s2 kept2 hrec =>
            cases h
            obtain ⟨ha1, hl1, hd1, ho1, hcase⟩ := sweep1Step_frame s p hstep
            rcases hcase with ⟨hseq, hkeq⟩ | ⟨hnone, _⟩
            · have hpp : p' = p := by injection hkeq
              subst hpp
              subst hseq
              obtain ⟨ha2, hl2, hd2, ho2, ⟨extra2, hre2, hemem2⟩, hkept2⟩ :=
                ih _ _ _ hrec
              refine ⟨ha2, hl2, hd2, ?_, ⟨extra2, hre2, ?_⟩, ?_⟩
              · intro i hi
                exact ho2 i (fun q hq => hi q (by simp [hq]))
              · intro e he
                obtain ⟨q, hq, rest_ex⟩ := hemem2 e he
                exact ⟨q, by simp [hq], rest_ex⟩
              · intro q hq
                rw [List.mem_cons] at hq
                rcases hq with hq | hq
                · simp [hq]
                · simp [hkept2 q hq]
            · cases hnone

/-- C10: a successful `Assembler::finish` never changes the segment's data
length, its label map or its alignment; every data byte outside the
reserved windows `[location, location + size)` of the pending
instructions is unchanged; and the only other effect is appending
reference records re-anchored from the last (largest) candidate of
pendings committed by the forced-largest sweep. -/
theorem c10_finish_frame :
    ∀ (a : Assembler) (s' : Segment), a.finish = .ok s' →
      s'.alignment = a.segment.alignment
      ∧ s'.labels = a.segment.labels
      ∧ s'.data.length = a.segment.data.length
      ∧ (∀ i, (∀ p ∈ a.pending_instructions,
            i < p.location ∨ p.location + p.size ≤ i) →
          s'.data[i]? = a.segment.data[i]?)
      ∧ (∃ extra, s'.references = a.segment.references ++ extra
          ∧ ∀ e ∈ extra, ∃ p, p ∈ a.pending_instructions ∧ ∃ o,
              p.options.getLast? = some o
              ∧ o.references.any (fun lr =>
                  (a.segment.label_location lr.1).isNone
                  || !lr.2.format.is_relative) = true
              ∧ ∃ lr, lr ∈ o.references
                  ∧ e = (lr.1, ⟨p.location + lr.2.location, lr.2.format⟩)) := by
  intro a s' h
  unfold Assembler.finish at h
  split at h
  · cases h
  · next s1 kept hsw1 =>
      obtain ⟨ha1, hl1, hd1, ho1, ⟨extra, hre1, hemem⟩, hkept⟩ :=
        sweep1_frame a.segment s1 kept hsw1
      obtain ⟨ha2, hl2, hr2, hd2, ho2⟩ := sweep2_frame s1 s' h
      refine ⟨ha2.trans ha1, hl2.trans hl1, hd2.trans hd1, ?_,
        extra, hr2.trans hre1, hemem⟩
      intro i hi
      rw [ho2 i (fun q hq => hi q (hkept q hq))]
      exact ho1 i hi

theorem le_of_mem_max? {l : List Nat} {w : Nat} (h : l.max? = some w)
    {x : Nat} (hx : x ∈ l) : x ≤ w := by
  rw [List.max?_eq_some_iff] at h
  · exact h.2 x hx
  · exact fun a => le_refl a
  · intro a b
    rcases le_total a b with hab | hab
    · exact .inr (sup_eq_right.mpr hab)
    · exact .inl (sup_eq_left.mpr hab)
  · intro a b c
    exact sup_le_iff

/-- The multi-candidate arm of `Assembler::push` reserves the worst-case
candidate size, so every candidate of an enqueued pending fits its
reservation, its window is in bounds, and its candidate list is the
pushed one. -/
theorem push_reserves_worst_case :
    ∀ (a : Assembler) (options : List InstructionBuilder) (a' : Assembler),
      Assembler.push a options = some a' →
      ∀ p ∈ a'.pending_instructions,
        p ∈ a.pending_instructions
        ∨ ((∀ o ∈ p.options, o.serialize.length ≤ p.size)
            ∧ p.location + p.size ≤ a'.segment.data.length
            ∧ p.options = options) := by
  intro a options a' h p hp
  unfold Assembler.push at h
  split at h
  · cases h
    exact .inl hp
  · next hne =>
      split at h
      · cases h
      · next worst hmax =>
          cases h
          rw [List.mem_append] at hp
          rcases hp with hp | hp
          · exact .inl hp
          · rw [List.mem_singleton] at hp
            subst hp
            refine .inr ⟨?_, ?_, rfl⟩
            · intro o ho
              exact le_of_mem_max? hmax (List.mem_map_of_mem _ ho)
            · simp [Segment.extend, Segment.position]

/-- The segment produced by finishing the concrete one-pending assembler. -/
def c10res : Segment :=
  ((⟨c4wseg, [c4wpend]⟩ : Assembler).finish).toOption.getD Segment.new

/-- Witness for C10 at the concrete one-pending assembler. -/
theorem c10_witness :
    c10res.alignment = c4wseg.alignment
    ∧ c10res.labels = c4wseg.labels
    ∧ c10res.data.length = c4wseg.data.length
    ∧ (∀ i, (∀ p ∈ [c4wpend], i < p.location ∨ p.location + p.size ≤ i) →
        c10res.data[i]? = c4wseg.data[i]?)
    ∧ (∃ extra, c10res.references = c4wseg.references ++ extra
        ∧ ∀ e ∈ extra, ∃ p, p ∈ [c4wpend] ∧ ∃ o,
            p.options.getLast? = some o
            ∧ o.references.any (fun lr =>
                (c4wseg.label_location lr.1).isNone
                || !lr.2.format.is_relative) = true
            ∧ ∃ lr, lr ∈ o.references
                ∧ e = (lr.1, ⟨p.location + lr.2.location, lr.2.format⟩)) :=
  c10_finish_frame ⟨c4wseg, [c4wpend]⟩ c10res rfl

end Alpha
